import Mathlib

/-!
Shallow embedding of the matchmaking / live-match / rating core:
`MatchmakingService.findMatches` and `isGoodMatch`, the
`EloRatingService` rating update, and the `BaseGame` session state
machine, together with proofs of the specification claims about them.
Timestamps are epoch milliseconds as integers; JS `Math.floor` division
is `Int.fdiv`; JS `Map` objects are association lists with
insert-or-overwrite semantics.
-/

namespace PUGG

/-- One row of the matchmaking queue (`QueueEntry` in
MatchmakingService.ts); `joined_at` is `Date.getTime()` milliseconds. -/
structure QueueEntry where
  user_id : String
  username : String
  elo_rating : ℤ
  joined_at : ℤ
  deriving DecidableEq, Repr

namespace MatchmakingService

/-- `ELO_THRESHOLD = 100`. -/
def ELO_THRESHOLD : ℤ := 100

/-- `EXPANSION_INTERVAL = 30000` milliseconds. -/
def EXPANSION_INTERVAL : ℤ := 30000

/-- `isGoodMatch(player1, player2, matchType)`: casual is always
compatible; ranked compares the elo gap against the threshold expanded
by `player1`'s wait time (`now` stands for `Date.now()`). -/
def isGoodMatch (now : ℤ) (matchType : String) (player1 player2 : QueueEntry) : Bool :=
  if matchType == "casual" then true
  else
    let eloDiff := |player1.elo_rating - player2.elo_rating|
    let waitTime := now - player1.joined_at
    let expandedThreshold := ELO_THRESHOLD + (Int.fdiv waitTime EXPANSION_INTERVAL) * 50
    decide (eloDiff ≤ expandedThreshold)

/-- The inner loop of `findMatches`: scan `candidates` (the full sorted
list), breaking on the first already-used candidate or once the group
has `requiredPlayers` members, otherwise admitting candidates compatible
with `anchor`.  Returns the grown group and the updated used set. -/
def buildGroup (now : ℤ) (matchType : String) (anchor : QueueEntry)
    (requiredPlayers : ℕ) :
    List QueueEntry → List QueueEntry → List String →
    (List QueueEntry × List String)
  | [], grp, used => (grp, used)
  | opponent :: rest, grp, used =>
    if opponent.user_id ∈ used ∨ requiredPlayers ≤ grp.length then
      (grp, used)
    else if isGoodMatch now matchType anchor opponent then
      buildGroup now matchType anchor requiredPlayers rest
        (grp ++ [opponent]) (opponent.user_id :: used)
    else
      buildGroup now matchType anchor requiredPlayers rest grp used

/-- The outer loop of `findMatches`: take each unclaimed player as the
anchor, grow a group via `buildGroup` over the whole sorted list, commit
it iff it has exactly `requiredPlayers` members, otherwise release the
claims (delete every member id from the used set). -/
def findMatchesLoop (now : ℤ) (matchType : String) (requiredPlayers : ℕ)
    (sortedPlayers : List QueueEntry) :
    List QueueEntry → List String → List (List QueueEntry) →
    (List (List QueueEntry) × List String)
  | [], used, committed => (committed, used)
  | player :: rest, used, committed =>
    if player.user_id ∈ used then
      findMatchesLoop now matchType requiredPlayers sortedPlayers rest used committed
    else
      let res := buildGroup now matchType player requiredPlayers sortedPlayers
        [player] (player.user_id :: used)
      if res.1.length = requiredPlayers then
        findMatchesLoop now matchType requiredPlayers sortedPlayers rest
          res.2 (committed ++ [res.1])
      else
        findMatchesLoop now matchType requiredPlayers sortedPlayers rest
          (res.1.foldl (fun u p => u.filter (fun s => s ≠ p.user_id)) res.2)
          committed

/-- `findMatches(players, requiredPlayers, matchType)`: sort by
`joined_at` ascending (the JS sort comparator on `getTime()`), then run
the greedy grouping loop. -/
def findMatches (players : List QueueEntry) (requiredPlayers : ℕ)
    (matchType : String) (now : ℤ) : List (List QueueEntry) :=
  let sortedPlayers :=
    players.insertionSort (fun a b => a.joined_at ≤ b.joined_at)
  (findMatchesLoop now matchType requiredPlayers sortedPlayers
    sortedPlayers [] []).1

end MatchmakingService

/-- Scenario-2 entrant A: rating 1000, joined at time 0 (65 s before the
scan at `now = 65000`). -/
def entrantA : QueueEntry := ⟨"A", "Alice", 1000, 0⟩

/-- Scenario-2 entrant C: rating 1200, joined at the scan time 65000. -/
def entrantC : QueueEntry := ⟨"C", "Carol", 1200, 65000⟩

/-- Entrant B: rating 1000, joined at 1000 ms (used for a committed
concrete match: the group the scan commits is anchored at B, the
second-oldest entrant). -/
def entrantB : QueueEntry := ⟨"B", "Bob", 1000, 1000⟩

/-- The result strings accepted by `EloRatingService.getActualScore`.
The declared TypeScript union is win/loss/draw/forfeit/disconnect; a
`timeout` string reaching the function falls through every branch to the
final `return 0`, so it is included to model that fallback. -/
inductive EloOutcome where
  | win | loss | draw | forfeit | disconnect | timeout
  deriving DecidableEq, Repr

/-- One element of the `results` array passed to
`EloRatingService.calculateNewRatings`. -/
structure GameResultEntry where
  userId : String
  result : EloOutcome
  eloBefore : ℤ
  deriving DecidableEq, Repr

/-- JS `Map.set`: overwrite in place if the key is present, otherwise
append the pair at the end. -/
def mapSet (m : List (String × ℤ)) (k : String) (v : ℤ) : List (String × ℤ) :=
  if m.any (fun p => p.1 == k) then
    m.map (fun p => if p.1 == k then (k, v) else p)
  else
    m ++ [(k, v)]

/-- JS `Map.get`: the value stored at the key, if any. -/
def mapGet (m : List (String × ℤ)) (k : String) : Option ℤ :=
  (m.find? (fun p => p.1 == k)).map (fun p => p.2)

namespace EloRatingService

/-- `K_FACTOR = 32`. -/
def K_FACTOR : ℤ := 32

/-- `getExpectedScore(playerRating, opponentRating)`: the Elo expected
score `1 / (1 + 10 ^ ((opponent − player) / 400))`. -/
noncomputable def getExpectedScore (playerRating opponentRating : ℤ) : ℝ :=
  1 / (1 + (10 : ℝ) ^ (((opponentRating : ℝ) - (playerRating : ℝ)) / 400))

/-- `getActualScore(playerResult, opponentResult)`: 1 for win, 0 for
loss/forfeit/disconnect, 0.5 for draw, 0 otherwise (the opponent's
result is ignored by the code). -/
def getActualScore (playerResult _opponentResult : EloOutcome) : ℚ :=
  if playerResult = .win then 1
  else if playerResult = .loss ∨ playerResult = .forfeit ∨
      playerResult = .disconnect then 0
  else if playerResult = .draw then 0.5
  else 0

/-- The `else` branch of `calculateNewRatings` (any participant count
other than exactly two): winners gain `round(K·0.6)`, participants with
loss/forfeit/disconnect lose `round(K·0.4)`, both floored at 500; no
other participant is touched. -/
def multiPlayerRatings (results : List GameResultEntry) : List (String × ℤ) :=
  let winners := results.filter (fun r => r.result == .win)
  let losers := results.filter (fun r =>
    r.result == .loss || r.result == .forfeit || r.result == .disconnect)
  let afterWinners := winners.foldl (fun m winner =>
    mapSet m winner.userId
      (max 500 (winner.eloBefore + round ((K_FACTOR : ℚ) * 0.6)))) []
  losers.foldl (fun m loser =>
    mapSet m loser.userId
      (max 500 (loser.eloBefore - round ((K_FACTOR : ℚ) * 0.4)))) afterWinners

/-- `calculateNewRatings(results)`: the two-participant branch applies
the Elo formula with `Math.round` and a floor of 500; every other
length takes the multi-player branch. -/
noncomputable def calculateNewRatings (results : List GameResultEntry) :
    List (String × ℤ) :=
  match results with
  | [player1, player2] =>
    let expectedScore1 := getExpectedScore player1.eloBefore player2.eloBefore
    let expectedScore2 := getExpectedScore player2.eloBefore player1.eloBefore
    let actualScore1 := getActualScore player1.result player2.result
    let actualScore2 := getActualScore player2.result player1.result
    let newRating1 := round ((player1.eloBefore : ℝ) +
      (K_FACTOR : ℝ) * ((actualScore1 : ℝ) - expectedScore1))
    let newRating2 := round ((player2.eloBefore : ℝ) +
      (K_FACTOR : ℝ) * ((actualScore2 : ℝ) - expectedScore2))
    mapSet (mapSet [] player1.userId (max 500 newRating1))
      player2.userId (max 500 newRating2)
  | _ => multiPlayerRatings results

end EloRatingService

/-- Modelled from the spec (§4.4): the specification's actual-score
table, `win = 1`, `draw = 0.5`, `loss/forfeit/disconnect/timeout = 0`,
used to compare the code against the spec's wording. -/
def specActualScore : EloOutcome → ℚ
  | .win => 1
  | .draw => 1 / 2
  | _ => 0

/-- Modelled from the spec (§4.4): `expected(a,b) =
1 / (1 + 10 ^ ((ratingB − ratingA) / 400))`. -/
noncomputable def specExpectedScore (ratingA ratingB : ℤ) : ℝ :=
  1 / (1 + (10 : ℝ) ^ (((ratingB : ℝ) - (ratingA : ℝ)) / 400))

/-- Modelled from the spec (§4.4): `newRating = round(prior + K·(actual −
expected))`, K = 32, floored at 500. -/
noncomputable def specNewRating (prior : ℤ) (actual : ℚ) (expected : ℝ) : ℤ :=
  max 500 (round ((prior : ℝ) + 32 * ((actual : ℝ) - expected)))

/-! ### The `BaseGame` session state machine

Embeds the EventEmitter-based `BaseGame` class: one record for the
mutable instance state, one explicit transition function per public
method, and one transition per armed timer callback (the move timer,
the game timer and the 30-second disconnect grace timer), each
returning the new state together with the list of emitted events.
Wall-clock reads (`Date.now()`) are passed in as a `now` argument. -/

/-- `Player` as used by `BaseGame`. -/
structure Player where
  id : String
  username : String
  socketId : Option String
  elo : ℤ
  isConnected : Bool
  deriving DecidableEq, Repr

instance : Inhabited Player := ⟨⟨"", "", none, 0, false⟩⟩

/-- A recorded `Move`; `moveNumber` is assigned as `moves.length + 1`
at append time. -/
structure GMove (μ : Type) where
  playerId : String
  moveData : μ
  timestamp : ℕ
  moveNumber : ℕ
  deriving DecidableEq, Repr

/-- The `BaseGame` status union. -/
inductive GStatus where
  | waiting | playing | paused | finished
  deriving DecidableEq, Repr

/-- The `GameResult.result` union of `BaseGame` (note: no `loss`). -/
inductive GameOutcome where
  | win | draw | forfeit | timeout | disconnect
  deriving DecidableEq, Repr

/-- `GameResult` as produced by `BaseGame.endGame`. -/
structure GameResult where
  isFinished : Bool
  result : GameOutcome
  winner : Option Player
  scores : List (String × ℚ)
  duration : ℕ
  totalMoves : ℕ
  endReason : String
  deriving DecidableEq, Repr

/-- The mutable fields of a `BaseGame` instance.  `γ` is the opaque
per-game `gameData`, `μ` the per-game move payload type. -/
structure BGState (γ μ : Type) where
  gameId : String
  gameType : String
  players : List Player
  currentPlayerIndex : ℕ
  gameData : γ
  moves : List (GMove μ)
  startTime : ℕ
  status : GStatus
  result : Option GameResult
  moveTimeLimit : Option ℕ
  gameTimeLimit : Option ℕ
  deriving DecidableEq, Repr

/-- The abstract methods a concrete game injects into `BaseGame`.
`applyMove` returns its success flag together with the (possibly
mutated) game data; `checkGameEnd` returns the fields of the produced
`GameResult` that `makeMove` actually reads (result kind, end reason,
winner), or `none` for `null`. -/
structure GameRules (γ μ : Type) where
  initialState : γ
  isValidMove : BGState γ μ → String → μ → Bool
  applyMove : γ → String → μ → Bool × γ
  checkGameEnd : BGState γ μ → Option (GameOutcome × String × Option Player)
  getScores : BGState γ μ → List (String × ℚ)

/-- The events a `BaseGame` emits. -/
inductive GEvent where
  | gameStarted | moveMade | playerDisconnected | playerReconnected | gameEnded
  deriving DecidableEq, Repr

namespace BaseGame

variable {γ μ : Type}

/-- The constructor: copies the players with `isConnected := true`,
index 0, empty move log, `waiting` status, no result. -/
def mkGame (R : GameRules γ μ) (gameId gameType : String)
    (players : List Player) (moveTimeLimit gameTimeLimit : Option ℕ)
    (now : ℕ) : BGState γ μ :=
  { gameId := gameId
    gameType := gameType
    players := players.map (fun p => { p with isConnected := true })
    currentPlayerIndex := 0
    gameData := R.initialState
    moves := []
    startTime := now
    status := .waiting
    result := none
    moveTimeLimit := moveTimeLimit
    gameTimeLimit := gameTimeLimit }

/-- `getCurrentPlayer()`: `this.players[this.currentPlayerIndex]`. -/
def getCurrentPlayer (s : BGState γ μ) : Player :=
  s.players.getD s.currentPlayerIndex default

/-- `endGame(result, reason, winner)`: no-op once finished; otherwise
set `finished`, build the `GameResult` and emit `gameEnded`. -/
def endGame (R : GameRules γ μ) (s : BGState γ μ) (result : GameOutcome)
    (reason : String) (winner : Option Player) (now : ℕ) :
    BGState γ μ × List GEvent :=
  if s.status = .finished then (s, [])
  else
    let res : GameResult :=
      { isFinished := true
        result := result
        winner := winner
        scores := R.getScores s
        duration := (now - s.startTime) / 1000
        totalMoves := s.moves.length
        endReason := reason }
    ({ s with status := .finished, result := some res }, [.gameEnded])

/-- `makeMove(playerId, moveData)`: guarded on `playing`, turn holder
and validity; applies the move, appends it with `moveNumber =
moves.length + 1`, then either ends the game or rotates the turn.  The
`Bool` is the returned success flag. -/
def makeMove (R : GameRules γ μ) (s : BGState γ μ) (playerId : String)
    (moveData : μ) (now : ℕ) : BGState γ μ × List GEvent × Bool :=
  if s.status ≠ .playing then (s, [], false)
  else if (getCurrentPlayer s).id ≠ playerId then (s, [], false)
  else if ¬ R.isValidMove s playerId moveData then (s, [], false)
  else
    let applied := R.applyMove s.gameData playerId moveData
    if ¬ applied.1 then ({ s with gameData := applied.2 }, [], false)
    else
      let s1 := { s with gameData := applied.2 }
      let move : GMove μ :=
        { playerId := playerId
          moveData := moveData
          timestamp := now
          moveNumber := s1.moves.length + 1 }
      let s2 := { s1 with moves := s1.moves ++ [move] }
      match R.checkGameEnd s2 with
      | some endResult =>
        let ended := endGame R s2 endResult.1 endResult.2.1 endResult.2.2 now
        (ended.1, ended.2 ++ [.moveMade], true)
      | none =>
        ({ s2 with currentPlayerIndex :=
            (s2.currentPlayerIndex + 1) % s2.players.length },
          [.moveMade], true)

/-- Mutate the first player with the given id, as the aliased object
mutation after `this.players.find(...)` does. -/
def updateFirst : List Player → String → (Player → Player) → List Player
  | [], _, _ => []
  | p :: ps, pid, f =>
    if p.id == pid then f p :: ps else p :: updateFirst ps pid f

/-- `playerDisconnected(playerId)`: returns untouched when the id is
unknown; otherwise clears the player's `isConnected` flag
unconditionally (also when already finished), arms the grace timer when
`playing` (modelled as the separate `disconnectGraceElapsed`
transition) and emits `playerDisconnected`. -/
def playerDisconnected (s : BGState γ μ) (playerId : String) :
    BGState γ μ × List GEvent :=
  match s.players.find? (fun p => p.id == playerId) with
  | none => (s, [])
  | some _ =>
    ({ s with players :=
        updateFirst s.players playerId (fun p => { p with isConnected := false }) },
      [.playerDisconnected])

/-- The 30-second reconnection-grace timer callback armed by
`playerDisconnected` while `playing`: if the player is still
disconnected, the game is still `playing` and exactly one connected
player remains, conclude with `disconnect` and that player as winner. -/
def disconnectGraceElapsed (R : GameRules γ μ) (s : BGState γ μ)
    (playerId : String) (now : ℕ) : BGState γ μ × List GEvent :=
  match s.players.find? (fun p => p.id == playerId) with
  | none => (s, [])
  | some player =>
    if ¬ player.isConnected ∧ s.status = .playing then
      let remainingPlayers := s.players.filter (fun p => p.isConnected)
      if remainingPlayers.length = 1 then
        endGame R s .disconnect (player.username ++ " disconnected")
          remainingPlayers.head? now
      else (s, [])
    else (s, [])

/-- `playerReconnected(playerId, socketId)`: set the flag and socket,
emit `playerReconnected`; unknown ids are ignored. -/
def playerReconnected (s : BGState γ μ) (playerId socketId : String) :
    BGState γ μ × List GEvent :=
  match s.players.find? (fun p => p.id == playerId) with
  | none => (s, [])
  | some _ =>
    let players' := updateFirst s.players playerId
      (fun p => { p with isConnected := true, socketId := some socketId })
    ({ s with players := players' }, [.playerReconnected])

/-- `playerForfeit(playerId)`: only while `playing` and for a known id;
winner is the first listed player with a different id; concludes with
outcome `forfeit`. -/
def playerForfeit (R : GameRules γ μ) (s : BGState γ μ) (playerId : String)
    (now : ℕ) : BGState γ μ × List GEvent :=
  if s.status ≠ .playing then (s, [])
  else
    match s.players.find? (fun p => p.id == playerId) with
    | none => (s, [])
    | some forfeiter =>
      let winner := s.players.find? (fun p => p.id != playerId)
      endGame R s .forfeit (forfeiter.username ++ " forfeited") winner now

/-- The move-timer callback armed by `startMoveTimer`: auto-forfeit of
the current turn holder. -/
def moveTimeoutFired (R : GameRules γ μ) (s : BGState γ μ) (now : ℕ) :
    BGState γ μ × List GEvent :=
  playerForfeit R s (getCurrentPlayer s).id now

/-- The total-game-duration timer callback armed by `start()`:
`endGame('timeout', 'Game time limit reached')`. -/
def gameTimeElapsed (R : GameRules γ μ) (s : BGState γ μ) (now : ℕ) :
    BGState γ μ × List GEvent :=
  endGame R s .timeout "Game time limit reached" none now

/-- `start()`: only from `waiting`; sets `playing`, resets the start
time, arms the timers and emits `gameStarted`. -/
def start (s : BGState γ μ) (now : ℕ) : BGState γ μ × List GEvent :=
  if s.status ≠ .waiting then (s, [])
  else ({ s with status := .playing, startTime := now }, [.gameStarted])

/-- One invocation of a public method or armed timer callback. -/
inductive GOp (μ : Type) where
  | start (now : ℕ)
  | makeMove (pid : String) (m : μ) (now : ℕ)
  | playerDisconnected (pid : String)
  | disconnectGrace (pid : String) (now : ℕ)
  | playerReconnected (pid sock : String)
  | playerForfeit (pid : String) (now : ℕ)
  | moveTimeout (now : ℕ)
  | gameTime (now : ℕ)

/-- The state reached by one operation (events discarded). -/
def step (R : GameRules γ μ) (s : BGState γ μ) : GOp μ → BGState γ μ
  | .start now => (start s now).1
  | .makeMove pid m now => (makeMove R s pid m now).1
  | .playerDisconnected pid => (playerDisconnected s pid).1
  | .disconnectGrace pid now => (disconnectGraceElapsed R s pid now).1
  | .playerReconnected pid sock => (playerReconnected s pid sock).1
  | .playerForfeit pid now => (playerForfeit R s pid now).1
  | .moveTimeout now => (moveTimeoutFired R s now).1
  | .gameTime now => (gameTimeElapsed R s now).1

/-- Run a sequence of operations. -/
def run (R : GameRules γ μ) (s : BGState γ μ) (ops : List (GOp μ)) :
    BGState γ μ :=
  ops.foldl (step R) s

end BaseGame

/-- A minimal instantiation of the abstract game hooks: every move is
legal, applying always succeeds without touching the data, the game
never ends on its own, no scores. -/
def trivialRules : GameRules Unit Unit :=
  { initialState := ()
    isValidMove := fun _ _ _ => true
    applyMove := fun g _ _ => (true, g)
    checkGameEnd := fun _ => none
    getScores := fun _ => [] }

/-- Concrete participant used in concrete sessions. -/
def playerOne : Player := ⟨"p1", "PlayerOne", none, 1000, true⟩

/-- Concrete participant used in concrete sessions. -/
def playerTwo : Player := ⟨"p2", "PlayerTwo", none, 1000, true⟩

/-- A concrete running 2-player session with an armed per-move timer
(`moveTimeLimit = some 30`). -/
def sessionPlaying : BGState Unit Unit :=
  BaseGame.run trivialRules
    (BaseGame.mkGame trivialRules "g1" "tictactoe" [playerOne, playerTwo]
      (some 30) none 0)
    [.start 0]

/-- A concrete concluded session: `playerOne` forfeited at `t = 5000`. -/
def sessionFinished : BGState Unit Unit :=
  BaseGame.run trivialRules sessionPlaying [.playerForfeit "p1" 5000]

/-- The three-participant rating input used for concrete evaluations:
a winner, a loser and a draw. -/
def resultsThree : List GameResultEntry :=
  [⟨"A", .win, 1000⟩, ⟨"B", .loss, 1000⟩, ⟨"C", .draw, 1000⟩]

/-! ## Helper lemmas about the `BaseGame` transitions -/

namespace BaseGame

variable {γ μ : Type}

theorem endGame_moves (R : GameRules γ μ) (s : BGState γ μ) (r : GameOutcome)
    (reason : String) (w : Option Player) (now : ℕ) :
    (endGame R s r reason w now).1.moves = s.moves := by
  unfold endGame; split <;> rfl

theorem endGame_players (R : GameRules γ μ) (s : BGState γ μ) (r : GameOutcome)
    (reason : String) (w : Option Player) (now : ℕ) :
    (endGame R s r reason w now).1.players = s.players := by
  unfold endGame; split <;> rfl

theorem endGame_index (R : GameRules γ μ) (s : BGState γ μ) (r : GameOutcome)
    (reason : String) (w : Option Player) (now : ℕ) :
    (endGame R s r reason w now).1.currentPlayerIndex = s.currentPlayerIndex := by
  unfold endGame; split <;> rfl

theorem updateFirst_length (l : List Player) (pid : String) (f : Player → Player) :
    (updateFirst l pid f).length = l.length := by
  induction l with
  | nil => rfl
  | cons p ps ih => unfold updateFirst; split <;> simp [ih]

theorem makeMove_players (R : GameRules γ μ) (s : BGState γ μ) (pid : String)
    (m : μ) (now : ℕ) : (makeMove R s pid m now).1.players = s.players := by
  unfold makeMove
  split
  · rfl
  split
  · rfl
  split
  · rfl
  dsimp only
  split
  · rfl
  split
  · exact endGame_players ..
  · rfl

theorem makeMove_index (R : GameRules γ μ) (s : BGState γ μ) (pid : String)
    (m : μ) (now : ℕ) :
    (makeMove R s pid m now).1.currentPlayerIndex = s.currentPlayerIndex ∨
    (makeMove R s pid m now).1.currentPlayerIndex
      = (s.currentPlayerIndex + 1) % s.players.length := by
  unfold makeMove
  split
  · exact Or.inl rfl
  split
  · exact Or.inl rfl
  split
  · exact Or.inl rfl
  dsimp only
  split
  · exact Or.inl rfl
  split
  · exact Or.inl (endGame_index ..)
  · exact Or.inr rfl

theorem makeMove_moves (R : GameRules γ μ) (s : BGState γ μ) (pid : String)
    (m : μ) (now : ℕ) :
    (makeMove R s pid m now).1.moves = s.moves ∨
    (makeMove R s pid m now).1.moves
      = s.moves ++ [⟨pid, m, now, s.moves.length + 1⟩] := by
  unfold makeMove
  split
  · exact Or.inl rfl
  split
  · exact Or.inl rfl
  split
  · exact Or.inl rfl
  dsimp only
  split
  · exact Or.inl rfl
  split
  · refine Or.inr ?_
    rw [endGame_moves]
  · exact Or.inr rfl

theorem makeMove_success_moves (R : GameRules γ μ) (s : BGState γ μ)
    (pid : String) (m : μ) (now : ℕ)
    (h : (makeMove R s pid m now).2.2 = true) :
    (makeMove R s pid m now).1.moves
      = s.moves ++ [⟨pid, m, now, s.moves.length + 1⟩] := by
  revert h
  unfold makeMove
  split
  · intro h; simp at h
  split
  · intro h; simp at h
  split
  · intro h; simp at h
  dsimp only
  split
  · intro h; simp at h
  split
  · intro _; rw [endGame_moves]
  · intro _; rfl

theorem start_moves (s : BGState γ μ) (now : ℕ) :
    (start s now).1.moves = s.moves := by
  unfold start; split <;> rfl

theorem start_players (s : BGState γ μ) (now : ℕ) :
    (start s now).1.players = s.players := by
  unfold start; split <;> rfl

theorem start_index (s : BGState γ μ) (now : ℕ) :
    (start s now).1.currentPlayerIndex = s.currentPlayerIndex := by
  unfold start; split <;> rfl

theorem playerDisconnected_frame (s : BGState γ μ) (pid : String) :
    (playerDisconnected s pid).1.moves = s.moves ∧
    (playerDisconnected s pid).1.currentPlayerIndex = s.currentPlayerIndex ∧
    (playerDisconnected s pid).1.players.length = s.players.length ∧
    (playerDisconnected s pid).1.status = s.status ∧
    (playerDisconnected s pid).1.result = s.result := by
  unfold playerDisconnected
  split <;> simp [updateFirst_length]

theorem playerReconnected_frame (s : BGState γ μ) (pid sock : String) :
    (playerReconnected s pid sock).1.moves = s.moves ∧
    (playerReconnected s pid sock).1.currentPlayerIndex = s.currentPlayerIndex ∧
    (playerReconnected s pid sock).1.players.length = s.players.length ∧
    (playerReconnected s pid sock).1.status = s.status ∧
    (playerReconnected s pid sock).1.result = s.result := by
  unfold playerReconnected
  split <;> simp [updateFirst_length]

theorem playerForfeit_frame (R : GameRules γ μ) (s : BGState γ μ)
    (pid : String) (now : ℕ) :
    (playerForfeit R s pid now).1.moves = s.moves ∧
    (playerForfeit R s pid now).1.currentPlayerIndex = s.currentPlayerIndex ∧
    (playerForfeit R s pid now).1.players = s.players := by
  unfold playerForfeit
  split
  · simp
  split
  · simp
  · exact ⟨endGame_moves .., endGame_index .., endGame_players ..⟩

theorem disconnectGraceElapsed_frame (R : GameRules γ μ) (s : BGState γ μ)
    (pid : String) (now : ℕ) :
    (disconnectGraceElapsed R s pid now).1.moves = s.moves ∧
    (disconnectGraceElapsed R s pid now).1.currentPlayerIndex
      = s.currentPlayerIndex ∧
    (disconnectGraceElapsed R s pid now).1.players = s.players := by
  unfold disconnectGraceElapsed
  split
  · simp
  split
  · dsimp only
    split
    · exact ⟨endGame_moves .., endGame_index .., endGame_players ..⟩
    · simp
  · simp

theorem gameTimeElapsed_frame (R : GameRules γ μ) (s : BGState γ μ) (now : ℕ) :
    (gameTimeElapsed R s now).1.moves = s.moves ∧
    (gameTimeElapsed R s now).1.currentPlayerIndex = s.currentPlayerIndex ∧
    (gameTimeElapsed R s now).1.players = s.players := by
  exact ⟨endGame_moves .., endGame_index .., endGame_players ..⟩

theorem moveTimeoutFired_frame (R : GameRules γ μ) (s : BGState γ μ) (now : ℕ) :
    (moveTimeoutFired R s now).1.moves = s.moves ∧
    (moveTimeoutFired R s now).1.currentPlayerIndex = s.currentPlayerIndex ∧
    (moveTimeoutFired R s now).1.players = s.players := by
  exact playerForfeit_frame ..

end BaseGame

/-! ## Claim C1 -/

/-- Claim C1 counterexample: on a concrete running 2-player session with
an armed per-move timer, the move-timer callback concludes the session
with outcome `forfeit`, not `timeout` as the claim states (the
`startMoveTimer` callback calls `playerForfeit`, and only the
total-game-duration timer produces `timeout`). -/
theorem moveTimer_counterexample_outcome_forfeit :
    sessionPlaying.status = GStatus.playing ∧
    sessionPlaying.moveTimeLimit = some 30 ∧
    ((BaseGame.moveTimeoutFired trivialRules sessionPlaying 100).1.result.map
      (fun r => r.result)) = some GameOutcome.forfeit ∧
    GameOutcome.forfeit ≠ GameOutcome.timeout := by decide

/-- Claim C1 (amended): for every running 2-player session with an armed
per-move timer and distinct player ids, the move-timer callback treats
the current turn holder as forfeiting: the session concludes with
outcome `forfeit` (not `timeout`) and the winner is the opposing
participant. -/
theorem moveTimer_concludes_forfeit_opponent_wins
    {γ μ : Type} (R : GameRules γ μ) (s : BGState γ μ) (a b : Player) (now : ℕ)
    (hp : s.players = [a, b]) (hidx : s.currentPlayerIndex < 2)
    (hids : a.id ≠ b.id) (hst : s.status = GStatus.playing)
    (_harmed : s.moveTimeLimit ≠ none) :
    (BaseGame.moveTimeoutFired R s now).1.status = GStatus.finished ∧
    ∃ res, (BaseGame.moveTimeoutFired R s now).1.result = some res ∧
      res.result = GameOutcome.forfeit ∧
      res.winner = some (if s.currentPlayerIndex = 0 then b else a) := by
  have hba : b.id ≠ a.id := Ne.symm hids
  have h2 : s.currentPlayerIndex = 0 ∨ s.currentPlayerIndex = 1 := by omega
  rcases h2 with h0 | h1
  · have hbne : (b.id != a.id) = true := bne_iff_ne.mpr hba
    simp [BaseGame.moveTimeoutFired, BaseGame.playerForfeit,
      BaseGame.getCurrentPlayer, BaseGame.endGame, hp, h0, hst,
      List.find?, hbne]
  · have habne : (a.id != b.id) = true := bne_iff_ne.mpr hids
    have hab : (a.id == b.id) = false := beq_eq_false_iff_ne.mpr hids
    simp [BaseGame.moveTimeoutFired, BaseGame.playerForfeit,
      BaseGame.getCurrentPlayer, BaseGame.endGame, hp, h1, hst,
      List.find?, habne, hab]

/-- Witness for the amended C1 theorem at the concrete running session. -/
theorem moveTimer_concludes_forfeit_opponent_wins_witness :
    (BaseGame.moveTimeoutFired trivialRules sessionPlaying 100).1.status
      = GStatus.finished ∧
    ∃ res, (BaseGame.moveTimeoutFired trivialRules sessionPlaying 100).1.result
        = some res ∧
      res.result = GameOutcome.forfeit ∧
      res.winner = some (if sessionPlaying.currentPlayerIndex = 0
        then playerTwo else playerOne) :=
  moveTimer_concludes_forfeit_opponent_wins trivialRules sessionPlaying
    playerOne playerTwo 100 (by decide) (by decide) (by decide) (by decide)
    (by decide)

/-! ## Claim C2 -/

/-- Claim C2 counterexample: on a concrete concluded session,
`playerDisconnected` still clears the named player's connectivity flag
and emits a `playerDisconnected` event, so a transition on a concluded
session is not a silent no-op for the whole state. -/
theorem concluded_disconnect_mutates_counterexample :
    sessionFinished.status = GStatus.finished ∧
    (BaseGame.playerDisconnected sessionFinished "p1").1 ≠ sessionFinished ∧
    (BaseGame.playerDisconnected sessionFinished "p1").2 ≠ ([] : List GEvent) := by
  decide

/-- Claim C2 (amended): once a session is concluded, `makeMove`, the
move-timer callback, `playerForfeit`, the disconnect-grace callback and
the game-timer callback leave the state unchanged and emit nothing;
`playerDisconnected` may still change the named player's connectivity
flag and emit a connectivity event, but it never changes the status,
the result or the move log and never emits `gameEnded`, so a Result is
never reported twice. -/
theorem concluded_transitions_frame_effects
    {γ μ : Type} (R : GameRules γ μ) (s : BGState γ μ) (pid : String) (m : μ)
    (now : ℕ) (h : s.status = GStatus.finished) :
    BaseGame.makeMove R s pid m now = (s, [], false) ∧
    BaseGame.moveTimeoutFired R s now = (s, []) ∧
    BaseGame.playerForfeit R s pid now = (s, []) ∧
    BaseGame.disconnectGraceElapsed R s pid now = (s, []) ∧
    BaseGame.gameTimeElapsed R s now = (s, []) ∧
    (BaseGame.playerDisconnected s pid).1.status = s.status ∧
    (BaseGame.playerDisconnected s pid).1.result = s.result ∧
    (BaseGame.playerDisconnected s pid).1.moves = s.moves ∧
    GEvent.gameEnded ∉ (BaseGame.playerDisconnected s pid).2 := by
  refine ⟨?_, ?_, ?_, ?_, ?_, ?_, ?_, ?_, ?_⟩
  · simp [BaseGame.makeMove, h]
  · simp [BaseGame.moveTimeoutFired, BaseGame.playerForfeit, h]
  · simp [BaseGame.playerForfeit, h]
  · unfold BaseGame.disconnectGraceElapsed
    split
    · rfl
    · dsimp only
      rw [if_neg (by simp [h])]
  · simp [BaseGame.gameTimeElapsed, BaseGame.endGame, h]
  · exact (BaseGame.playerDisconnected_frame s pid).2.2.2.1
  · exact (BaseGame.playerDisconnected_frame s pid).2.2.2.2
  · exact (BaseGame.playerDisconnected_frame s pid).1
  · unfold BaseGame.playerDisconnected
    split <;> simp

/-- Witness for the amended C2 theorem at the concrete concluded
session. -/
theorem concluded_transitions_frame_effects_witness :
    BaseGame.makeMove trivialRules sessionFinished "p1" () 7
      = (sessionFinished, [], false) ∧
    BaseGame.moveTimeoutFired trivialRules sessionFinished 7
      = (sessionFinished, []) ∧
    BaseGame.playerForfeit trivialRules sessionFinished "p1" 7
      = (sessionFinished, []) ∧
    BaseGame.disconnectGraceElapsed trivialRules sessionFinished "p1" 7
      = (sessionFinished, []) ∧
    BaseGame.gameTimeElapsed trivialRules sessionFinished 7
      = (sessionFinished, []) ∧
    (BaseGame.playerDisconnected sessionFinished "p1").1.status
      = sessionFinished.status ∧
    (BaseGame.playerDisconnected sessionFinished "p1").1.result
      = sessionFinished.result ∧
    (BaseGame.playerDisconnected sessionFinished "p1").1.moves
      = sessionFinished.moves ∧
    GEvent.gameEnded ∉ (BaseGame.playerDisconnected sessionFinished "p1").2 :=
  concluded_transitions_frame_effects trivialRules sessionFinished "p1" () 7
    (by decide)

/-! ## Claims C9 and C10: invariants over operation sequences -/

namespace BaseGame

variable {γ μ : Type}

theorem getD_of_lt (l : List Player) (i : ℕ) (h : i < l.length) :
    l.get? i = some (l.getD i default) ∧ l.getD i default ∈ l := by
  induction l generalizing i with
  | nil => simp at h
  | cons p ps ih =>
    cases i with
    | zero => simp
    | succ j =>
      have hj : j < ps.length := by simpa using h
      obtain ⟨h1, h2⟩ := ih j hj
      refine ⟨?_, ?_⟩
      · rw [List.get?_cons_succ, List.getD_cons_succ]; exact h1
      · rw [List.getD_cons_succ]; exact List.mem_cons_of_mem _ h2

theorem range_one_concat (n : ℕ) :
    List.range' 1 (n + 1) = List.range' 1 n ++ [n + 1] := by
  simp [List.range'_concat, Nat.add_comm]

theorem step_preserves_seq (R : GameRules γ μ) (s : BGState γ μ) (op : GOp μ)
    (h : s.moves.map (fun mv => mv.moveNumber) = List.range' 1 s.moves.length) :
    (step R s op).moves.map (fun mv => mv.moveNumber)
      = List.range' 1 (step R s op).moves.length := by
  cases op with
  | start now =>
    simp only [step]; rw [start_moves]; exact h
  | makeMove pid m now =>
    simp only [step]
    rcases makeMove_moves R s pid m now with he | he <;> rw [he]
    · exact h
    · rw [List.map_append, h, List.length_append]
      simp only [List.map_cons, List.map_nil, List.length_cons,
        List.length_nil, Nat.zero_add]
      exact (range_one_concat s.moves.length).symm
  | playerDisconnected pid =>
    simp only [step]; rw [(playerDisconnected_frame s pid).1]; exact h
  | disconnectGrace pid now =>
    simp only [step]; rw [(disconnectGraceElapsed_frame R s pid now).1]; exact h
  | playerReconnected pid sock =>
    simp only [step]; rw [(playerReconnected_frame s pid sock).1]; exact h
  | playerForfeit pid now =>
    simp only [step]; rw [(playerForfeit_frame R s pid now).1]; exact h
  | moveTimeout now =>
    simp only [step]; rw [(moveTimeoutFired_frame R s now).1]; exact h
  | gameTime now =>
    simp only [step]; rw [(gameTimeElapsed_frame R s now).1]; exact h

theorem run_preserves_seq (R : GameRules γ μ) (ops : List (GOp μ)) :
    ∀ s : BGState γ μ,
      s.moves.map (fun mv => mv.moveNumber) = List.range' 1 s.moves.length →
      (run R s ops).moves.map (fun mv => mv.moveNumber)
        = List.range' 1 (run R s ops).moves.length := by
  induction ops with
  | nil => intro s h; exact h
  | cons op rest ih =>
    intro s h
    have hstep := step_preserves_seq R s op h
    simpa [run, List.foldl_cons] using ih (step R s op) hstep

theorem step_preserves_idx (R : GameRules γ μ) (s : BGState γ μ) (op : GOp μ)
    (h : s.currentPlayerIndex < s.players.length) :
    (step R s op).currentPlayerIndex < (step R s op).players.length := by
  cases op with
  | start now =>
    simp only [step]; rw [start_index, start_players]; exact h
  | makeMove pid m now =>
    simp only [step]
    rw [makeMove_players]
    rcases makeMove_index R s pid m now with he | he <;> rw [he]
    · exact h
    · exact Nat.mod_lt _ (by omega)
  | playerDisconnected pid =>
    simp only [step]
    rw [(playerDisconnected_frame s pid).2.1, (playerDisconnected_frame s pid).2.2.1]
    exact h
  | disconnectGrace pid now =>
    simp only [step]
    rw [(disconnectGraceElapsed_frame R s pid now).2.1,
      (disconnectGraceElapsed_frame R s pid now).2.2]
    exact h
  | playerReconnected pid sock =>
    simp only [step]
    rw [(playerReconnected_frame s pid sock).2.1,
      (playerReconnected_frame s pid sock).2.2.1]
    exact h
  | playerForfeit pid now =>
    simp only [step]
    rw [(playerForfeit_frame R s pid now).2.1, (playerForfeit_frame R s pid now).2.2]
    exact h
  | moveTimeout now =>
    simp only [step]
    rw [(moveTimeoutFired_frame R s now).2.1, (moveTimeoutFired_frame R s now).2.2]
    exact h
  | gameTime now =>
    simp only [step]
    rw [(gameTimeElapsed_frame R s now).2.1, (gameTimeElapsed_frame R s now).2.2]
    exact h

theorem run_preserves_idx (R : GameRules γ μ) (ops : List (GOp μ)) :
    ∀ s : BGState γ μ, s.currentPlayerIndex < s.players.length →
      (run R s ops).currentPlayerIndex < (run R s ops).players.length := by
  induction ops with
  | nil => intro s h; exact h
  | cons op rest ih =>
    intro s h
    have hstep := step_preserves_idx R s op h
    simpa [run, List.foldl_cons] using ih (step R s op) hstep

end BaseGame

/-- Claim C9 (confirmed): in any session built by the constructor and
driven by any sequence of operations, the move log carries move numbers
exactly 1, 2, …, n in log order, and every successful `makeMove`
appends exactly one move numbered `moves.length + 1`. -/
theorem move_numbers_sequential :
    (∀ (γ μ : Type) (R : GameRules γ μ) (gid gt : String)
      (players : List Player) (mtl gtl : Option ℕ) (now0 : ℕ)
      (ops : List (BaseGame.GOp μ)),
      let s := BaseGame.run R (BaseGame.mkGame R gid gt players mtl gtl now0) ops
      s.moves.map (fun mv => mv.moveNumber) = List.range' 1 s.moves.length) ∧
    (∀ (γ μ : Type) (R : GameRules γ μ) (s : BGState γ μ) (pid : String)
      (m : μ) (now : ℕ), (BaseGame.makeMove R s pid m now).2.2 = true →
      (BaseGame.makeMove R s pid m now).1.moves
        = s.moves ++ [⟨pid, m, now, s.moves.length + 1⟩]) := by
  constructor
  · intro γ μ R gid gt players mtl gtl now0 ops
    exact BaseGame.run_preserves_seq R ops _ (by simp [BaseGame.mkGame])
  · intro γ μ R s pid m now h
    exact BaseGame.makeMove_success_moves R s pid m now h

/-- Witness for C9 at a concrete session: a run of two successful moves
has move numbers `[1, 2]`, and a successful `makeMove` on the concrete
running session appends the move numbered `length + 1`. -/
theorem move_numbers_sequential_witness :
    (let s := BaseGame.run trivialRules
      (BaseGame.mkGame trivialRules "g1" "tictactoe" [playerOne, playerTwo]
        (some 30) none 0)
      [.start 0, .makeMove "p1" () 1, .makeMove "p2" () 2]
     s.moves.map (fun mv => mv.moveNumber) = List.range' 1 s.moves.length) ∧
    (BaseGame.makeMove trivialRules sessionPlaying "p1" () 9).1.moves
      = sessionPlaying.moves ++ [⟨"p1", (), 9, sessionPlaying.moves.length + 1⟩] :=
  ⟨move_numbers_sequential.1 Unit Unit trivialRules "g1" "tictactoe"
      [playerOne, playerTwo] (some 30) none 0
      [.start 0, .makeMove "p1" () 1, .makeMove "p2" () 2],
   move_numbers_sequential.2 Unit Unit trivialRules sessionPlaying "p1" () 9
      (by decide)⟩

/-- Claim C10 (confirmed): starting from the constructor with a
non-empty players list, every operation sequence keeps
`currentPlayerIndex` strictly below `players.length`, so
`getCurrentPlayer` reads an actual element of the players list. -/
theorem currentPlayerIndex_in_bounds
    (γ μ : Type) (R : GameRules γ μ) (gid gt : String)
    (players : List Player) (mtl gtl : Option ℕ) (now0 : ℕ)
    (ops : List (BaseGame.GOp μ)) (hne : players ≠ []) :
    let s := BaseGame.run R (BaseGame.mkGame R gid gt players mtl gtl now0) ops
    s.currentPlayerIndex < s.players.length ∧
    s.players.get? s.currentPlayerIndex = some (BaseGame.getCurrentPlayer s) ∧
    BaseGame.getCurrentPlayer s ∈ s.players := by
  intro s
  have hbase : (BaseGame.mkGame R gid gt players mtl gtl now0).currentPlayerIndex
      < (BaseGame.mkGame R gid gt players mtl gtl now0).players.length := by
    simp [BaseGame.mkGame]
    exact List.length_pos.mpr hne
  have hlt : s.currentPlayerIndex < s.players.length :=
    BaseGame.run_preserves_idx R ops _ hbase
  have hget := BaseGame.getD_of_lt s.players s.currentPlayerIndex hlt
  exact ⟨hlt, hget.1, hget.2⟩

/-- Witness for C10 at a concrete two-player session and operation
sequence. -/
theorem currentPlayerIndex_in_bounds_witness :
    let s := BaseGame.run trivialRules
      (BaseGame.mkGame trivialRules "g1" "tictactoe" [playerOne, playerTwo]
        (some 30) none 0)
      [.start 0, .makeMove "p1" () 1, .playerDisconnected "p2"]
    s.currentPlayerIndex < s.players.length ∧
    s.players.get? s.currentPlayerIndex = some (BaseGame.getCurrentPlayer s) ∧
    BaseGame.getCurrentPlayer s ∈ s.players :=
  currentPlayerIndex_in_bounds Unit Unit trivialRules "g1" "tictactoe"
    [playerOne, playerTwo] (some 30) none 0
    [.start 0, .makeMove "p1" () 1, .playerDisconnected "p2"] (by decide)

/-! ## Helper lemmas about JS maps and the rating update -/

theorem mapSet_mem (m : List (String × ℤ)) (k : String) (v : ℤ)
    (q : String × ℤ) (hq : q ∈ mapSet m k v) : q ∈ m ∨ q = (k, v) := by
  unfold mapSet at hq
  split at hq
  · rcases List.mem_map.mp hq with ⟨p, hp, hpe⟩
    by_cases hk : (p.1 == k) = true
    · rw [if_pos hk] at hpe
      exact Or.inr hpe.symm
    · rw [if_neg hk] at hpe
      exact Or.inl (hpe ▸ hp)
  · rcases List.mem_append.mp hq with h | h
    · exact Or.inl h
    · exact Or.inr (List.mem_singleton.mp h)

theorem mapSet_nil (k : String) (v : ℤ) : mapSet [] k v = [(k, v)] := rfl

theorem mapSet_single_ne (k1 k2 : String) (v1 v2 : ℤ)
    (h : (k1 == k2) = false) :
    mapSet [(k1, v1)] k2 v2 = [(k1, v1), (k2, v2)] := by
  unfold mapSet
  rw [if_neg (by simp [h])]
  rfl

theorem mapGet_cons_self (k : String) (v : ℤ) (m : List (String × ℤ)) :
    mapGet ((k, v) :: m) k = some v := by
  simp [mapGet, List.find?_cons_of_pos]

theorem mapGet_cons_ne (k1 k2 : String) (v : ℤ) (m : List (String × ℤ))
    (h : (k1 == k2) = false) :
    mapGet ((k1, v) :: m) k2 = mapGet m k2 := by
  unfold mapGet
  rw [List.find?_cons_of_neg _ (by simp [h])]

theorem foldl_mapSet_ge {α : Type} (key : α → String) (val : α → ℤ)
    (hval : ∀ x, 500 ≤ val x) (L : List α) :
    ∀ m : List (String × ℤ), (∀ q ∈ m, 500 ≤ q.2) →
      ∀ q ∈ L.foldl (fun acc x => mapSet acc (key x) (val x)) m, 500 ≤ q.2 := by
  induction L with
  | nil => intro m hm q hq; exact hm q hq
  | cons x xs ih =>
    intro m hm q hq
    rw [List.foldl_cons] at hq
    refine ih _ ?_ q hq
    intro p hp
    rcases mapSet_mem _ _ _ _ hp with h | h
    · exact hm p h
    · rw [h]; exact hval x

theorem calculateNewRatings_pair (p1 p2 : GameResultEntry) :
    EloRatingService.calculateNewRatings [p1, p2]
      = mapSet (mapSet [] p1.userId
          (max 500 (round ((p1.eloBefore : ℝ) +
            (EloRatingService.K_FACTOR : ℝ) *
              ((EloRatingService.getActualScore p1.result p2.result : ℝ) -
                EloRatingService.getExpectedScore p1.eloBefore p2.eloBefore)))))
        p2.userId
          (max 500 (round ((p2.eloBefore : ℝ) +
            (EloRatingService.K_FACTOR : ℝ) *
              ((EloRatingService.getActualScore p2.result p1.result : ℝ) -
                EloRatingService.getExpectedScore p2.eloBefore p1.eloBefore)))) :=
  rfl

theorem calculateNewRatings_multi (results : List GameResultEntry)
    (h : results.length ≠ 2) :
    EloRatingService.calculateNewRatings results
      = EloRatingService.multiPlayerRatings results := by
  match results with
  | [] => rfl
  | [a] => rfl
  | [a, b] => exact absurd rfl h
  | a :: b :: c :: t => rfl

theorem multiPlayerRatings_ge (results : List GameResultEntry)
    (q : String × ℤ) (hq : q ∈ EloRatingService.multiPlayerRatings results) :
    500 ≤ q.2 := by
  unfold EloRatingService.multiPlayerRatings at hq
  refine foldl_mapSet_ge (fun r : GameResultEntry => r.userId)
    (fun r : GameResultEntry =>
      max 500 (r.eloBefore - round ((EloRatingService.K_FACTOR : ℚ) * 0.4)))
    (fun x => le_max_left ..) _ _ ?_ q hq
  intro p hp
  exact foldl_mapSet_ge (fun r : GameResultEntry => r.userId)
    (fun r : GameResultEntry =>
      max 500 (r.eloBefore + round ((EloRatingService.K_FACTOR : ℚ) * 0.6)))
    (fun x => le_max_left ..) _ _ (by intro p hp; simp at hp) p hp

theorem round_sixty : round ((EloRatingService.K_FACTOR : ℚ) * 0.6) = 19 := by
  norm_num [EloRatingService.K_FACTOR, round_eq]

theorem round_forty : round ((EloRatingService.K_FACTOR : ℚ) * 0.4) = 13 := by
  norm_num [EloRatingService.K_FACTOR, round_eq]

theorem calculateNewRatings_resultsThree :
    EloRatingService.calculateNewRatings resultsThree
      = [("A", 1019), ("B", 987)] := by
  show EloRatingService.multiPlayerRatings resultsThree = _
  unfold EloRatingService.multiPlayerRatings resultsThree
  simp only [List.filter, round_sixty, round_forty, List.foldl]
  norm_num [mapSet]
  decide

/-! ## Claim C8 -/

/-- Claim C8 (confirmed): every rating value in the map returned by
`calculateNewRatings` is at least 500, for any participant count,
priors and outcomes. -/
theorem ratings_floored_at_500 (results : List GameResultEntry)
    (q : String × ℤ) (hq : q ∈ EloRatingService.calculateNewRatings results) :
    500 ≤ q.2 := by
  rcases results with _ | ⟨a, _ | ⟨b, _ | ⟨c, t⟩⟩⟩
  · exact multiPlayerRatings_ge _ _ hq
  · exact multiPlayerRatings_ge _ _ hq
  · rw [calculateNewRatings_pair] at hq
    rcases mapSet_mem _ _ _ _ hq with h | h
    · rcases mapSet_mem _ _ _ _ h with h2 | h2
      · simp at h2
      · rw [h2]; exact le_max_left ..
    · rw [h]; exact le_max_left ..
  · exact multiPlayerRatings_ge _ _ hq

/-- Witness for C8: the winner entry of the concrete three-player input
is in the returned map and its value `1019` is not below 500. -/
theorem ratings_floored_at_500_witness : (500 : ℤ) ≤ (("A", (1019 : ℤ))).2 :=
  ratings_floored_at_500 resultsThree ("A", 1019)
    (by rw [calculateNewRatings_resultsThree]; decide)

theorem actualScore_eq_spec (o o' : EloOutcome) :
    EloRatingService.getActualScore o o' = specActualScore o := by
  cases o <;>
    (simp [EloRatingService.getActualScore, specActualScore]; try norm_num)

/-! ## Claim C6 -/

/-- Claim C6 (confirmed): for two participants with distinct ids,
`calculateNewRatings` returns for each one exactly the specification's
`round(prior + 32·(actual − expected))` floored at 500, with `expected`
the Elo logistic formula and `actual` the win=1 / draw=0.5 / other=0
table; in particular A(1000) beating B(1000) yields A=1016, B=984. -/
theorem elo_two_player_matches_spec_formula :
    (∀ p1 p2 : GameResultEntry, p1.userId ≠ p2.userId →
      mapGet (EloRatingService.calculateNewRatings [p1, p2]) p1.userId
        = some (specNewRating p1.eloBefore (specActualScore p1.result)
            (specExpectedScore p1.eloBefore p2.eloBefore)) ∧
      mapGet (EloRatingService.calculateNewRatings [p1, p2]) p2.userId
        = some (specNewRating p2.eloBefore (specActualScore p2.result)
            (specExpectedScore p2.eloBefore p1.eloBefore))) ∧
    EloRatingService.calculateNewRatings
        [⟨"A", .win, 1000⟩, ⟨"B", .loss, 1000⟩] = [("A", 1016), ("B", 984)] := by
  constructor
  · intro p1 p2 h
    have hne : (p1.userId == p2.userId) = false := beq_eq_false_iff_ne.mpr h
    rw [calculateNewRatings_pair, mapSet_nil, mapSet_single_ne _ _ _ _ hne]
    constructor
    · rw [mapGet_cons_self]
      rw [actualScore_eq_spec]
      norm_num [specNewRating, specExpectedScore,
        EloRatingService.getExpectedScore, EloRatingService.K_FACTOR]
    · rw [mapGet_cons_ne _ _ _ _ hne, mapGet_cons_self]
      rw [actualScore_eq_spec]
      norm_num [specNewRating, specExpectedScore,
        EloRatingService.getExpectedScore, EloRatingService.K_FACTOR]
  · rw [calculateNewRatings_pair]
    have hexp : EloRatingService.getExpectedScore 1000 1000 = 1 / 2 := by
      unfold EloRatingService.getExpectedScore
      have h0 : ((((1000 : ℤ) : ℝ)) - (((1000 : ℤ) : ℝ))) / 400 = 0 := by
        norm_num
      rw [h0, Real.rpow_zero]
      norm_num
    dsimp only
    rw [hexp, actualScore_eq_spec, actualScore_eq_spec]
    have r1 : round ((((1000 : ℤ) : ℝ)) +
        ((EloRatingService.K_FACTOR : ℤ) : ℝ) *
          (((specActualScore EloOutcome.win : ℚ) : ℝ) - 1 / 2)) = 1016 := by
      have he : (((1000 : ℤ) : ℝ)) +
          ((EloRatingService.K_FACTOR : ℤ) : ℝ) *
            (((specActualScore EloOutcome.win : ℚ) : ℝ) - 1 / 2)
          = ((1016 : ℤ) : ℝ) := by
        norm_num [specActualScore, EloRatingService.K_FACTOR]
      rw [he, round_intCast]
    have r2 : round ((((1000 : ℤ) : ℝ)) +
        ((EloRatingService.K_FACTOR : ℤ) : ℝ) *
          (((specActualScore EloOutcome.loss : ℚ) : ℝ) - 1 / 2)) = 984 := by
      have he : (((1000 : ℤ) : ℝ)) +
          ((EloRatingService.K_FACTOR : ℤ) : ℝ) *
            (((specActualScore EloOutcome.loss : ℚ) : ℝ) - 1 / 2)
          = ((984 : ℤ) : ℝ) := by
        norm_num [specActualScore, EloRatingService.K_FACTOR]
      rw [he, round_intCast]
    rw [r1, r2]
    decide

/-- Witness for the universally quantified part of C6, applied to two
concrete participants with distinct ids. -/
theorem elo_two_player_matches_spec_formula_witness :
    mapGet (EloRatingService.calculateNewRatings
        [⟨"X", .draw, 800⟩, ⟨"Y", .win, 900⟩]) "X"
      = some (specNewRating 800 (specActualScore .draw)
          (specExpectedScore 800 900)) ∧
    mapGet (EloRatingService.calculateNewRatings
        [⟨"X", .draw, 800⟩, ⟨"Y", .win, 900⟩]) "Y"
      = some (specNewRating 900 (specActualScore .win)
          (specExpectedScore 900 800)) :=
  elo_two_player_matches_spec_formula.1 ⟨"X", .draw, 800⟩ ⟨"Y", .win, 900⟩
    (by decide)

theorem mapSet_append_of_not_key (m : List (String × ℤ)) (k : String) (v : ℤ)
    (h : ∀ q ∈ m, q.1 ≠ k) : mapSet m k v = m ++ [(k, v)] := by
  have hany : m.any (fun p => p.1 == k) = false := by
    rw [List.any_eq_false]
    intro p hp
    simpa using h p hp
  simp [mapSet, hany]

theorem foldl_mapSet_append {α : Type} (key : α → String) (val : α → ℤ) :
    ∀ (L : List α) (m : List (String × ℤ)),
      (∀ x ∈ L, ∀ q ∈ m, q.1 ≠ key x) → (L.map key).Nodup →
      L.foldl (fun acc x => mapSet acc (key x) (val x)) m
        = m ++ L.map (fun x => (key x, val x)) := by
  intro L
  induction L with
  | nil => intro m _ _; simp
  | cons x xs ih =>
    intro m hm hnd
    rw [List.foldl_cons,
      mapSet_append_of_not_key m (key x) (val x) (hm x (List.mem_cons_self ..))]
    rw [ih (m ++ [(key x, val x)]) ?_ ?_]
    · simp
    · intro y hy q hq
      rcases List.mem_append.mp hq with hql | hqr
      · exact hm y (List.mem_cons_of_mem _ hy) q hql
      · have hq2 : q = (key x, val x) := List.mem_singleton.mp hqr
        rw [hq2]
        intro heq
        have heq2 : key x = key y := heq
        apply (List.nodup_cons.mp hnd).1
        rw [heq2]
        exact List.mem_map_of_mem key hy
    · exact (List.nodup_cons.mp hnd).2

theorem find?_map_key_eq {α : Type} (key : α → String) (val : α → ℤ)
    (L : List α) (r : α) (hr : r ∈ L) (hnd : (L.map key).Nodup) :
    (L.map (fun x => (key x, val x))).find? (fun p => p.1 == key r)
      = some (key r, val r) := by
  induction L with
  | nil => simp at hr
  | cons x xs ih =>
    rcases List.mem_cons.mp hr with rfl | hr2
    · rw [List.map_cons, List.find?_cons_of_pos _ (by simp)]
    · have hnd' := List.nodup_cons.mp hnd
      have hneq : (key x == key r) = false := by
        refine beq_eq_false_iff_ne.mpr ?_
        intro heq
        exact hnd'.1 (heq ▸ List.mem_map_of_mem key hr2)
      rw [List.map_cons, List.find?_cons_of_neg _ (by simp [hneq])]
      exact ih hr2 hnd'.2

theorem find?_map_key_none {α : Type} (key : α → String) (val : α → ℤ)
    (L : List α) (k : String) (hk : ∀ x ∈ L, key x ≠ k) :
    (L.map (fun x => (key x, val x))).find? (fun p => p.1 == k) = none := by
  rw [List.find?_eq_none]
  intro p hp
  rcases List.mem_map.mp hp with ⟨x, hx, rfl⟩
  simp [hk x hx]

/-! ## Claim C7 -/

/-- Claim C7 counterexample: in the concrete three-player input the
participant whose outcome is a draw receives no entry at all in the
returned map (the multi-player branch only builds entries for win and
for loss/forfeit/disconnect), instead of losing `round(32·0.4)` as the
claim states. -/
theorem multiplayer_draw_unrated_counterexample :
    2 < resultsThree.length ∧
    (∃ r ∈ resultsThree, r.userId = "C" ∧ r.result = EloOutcome.draw) ∧
    mapGet (EloRatingService.calculateNewRatings resultsThree) "C" = none := by
  refine ⟨by decide, by decide, ?_⟩
  rw [calculateNewRatings_resultsThree]
  decide

/-- Claim C7 (amended): with more than two participants and distinct
user ids, every win outcome gains `round(32·0.6)`, every
loss/forfeit/disconnect outcome loses `round(32·0.4)`, both floored at
500; a participant with any other outcome (draw, or an unexpected
string such as timeout) receives no entry in the returned map. -/
theorem multiplayer_flat_deltas_amended (results : List GameResultEntry)
    (h2 : 2 < results.length)
    (hnd : (results.map (fun r => r.userId)).Nodup)
    (r : GameResultEntry) (hr : r ∈ results) :
    mapGet (EloRatingService.calculateNewRatings results) r.userId
      = if r.result = .win then
          some (max 500 (r.eloBefore +
            round ((EloRatingService.K_FACTOR : ℚ) * 0.6)))
        else if r.result = .loss ∨ r.result = .forfeit ∨
            r.result = .disconnect then
          some (max 500 (r.eloBefore -
            round ((EloRatingService.K_FACTOR : ℚ) * 0.4)))
        else none := by
  rw [calculateNewRatings_multi _ (by omega)]
  unfold EloRatingService.multiPlayerRatings
  dsimp only
  have hinj := List.inj_on_of_nodup_map hnd
  have hwnd : ((results.filter (fun x => x.result == .win)).map
      (fun x => x.userId)).Nodup :=
    hnd.sublist ((List.filter_sublist results).map _)
  have hlnd : ((results.filter (fun x =>
      x.result == .loss || x.result == .forfeit ||
        x.result == .disconnect)).map (fun x => x.userId)).Nodup :=
    hnd.sublist ((List.filter_sublist results).map _)
  have hw : (results.filter (fun x => x.result == .win)).foldl
      (fun m winner => mapSet m winner.userId
        (max 500 (winner.eloBefore +
          round ((EloRatingService.K_FACTOR : ℚ) * 0.6)))) []
      = (results.filter (fun x => x.result == .win)).map
        (fun x => (x.userId, max 500 (x.eloBefore +
          round ((EloRatingService.K_FACTOR : ℚ) * 0.6)))) := by
    have h0 := foldl_mapSet_append (fun x : GameResultEntry => x.userId)
      (fun x : GameResultEntry =>
        max 500 (x.eloBefore + round ((EloRatingService.K_FACTOR : ℚ) * 0.6)))
      (results.filter (fun x => x.result == .win)) []
      (by intro x _ q hq; simp at hq) hwnd
    rw [List.nil_append] at h0
    exact h0
  have hcross : ∀ x ∈ results.filter (fun x =>
      x.result == .loss || x.result == .forfeit || x.result == .disconnect),
      ∀ q ∈ (results.filter (fun x => x.result == .win)).map
        (fun x => (x.userId,
          max 500 (x.eloBefore +
            round ((EloRatingService.K_FACTOR : ℚ) * 0.6)))),
      q.1 ≠ x.userId := by
    intro x hx q hq
    rcases List.mem_map.mp hq with ⟨w, hw2, rfl⟩
    have hwmem := List.mem_filter.mp hw2
    have hxmem := List.mem_filter.mp hx
    intro heq
    have heq2 : w.userId = x.userId := heq
    have hxw : w = x := hinj hwmem.1 hxmem.1 heq2
    rw [hxw] at hwmem
    have h1 : x.result = EloOutcome.win := by simpa using hwmem.2
    have hx2 := hxmem.2
    simp only [Bool.or_eq_true, beq_iff_eq] at hx2
    rcases hx2 with (h | h) | h <;> rw [h1] at h <;> exact EloOutcome.noConfusion h
  have hl : (results.filter (fun x =>
      x.result == .loss || x.result == .forfeit ||
        x.result == .disconnect)).foldl
      (fun m loser => mapSet m loser.userId
        (max 500 (loser.eloBefore -
          round ((EloRatingService.K_FACTOR : ℚ) * 0.4))))
      ((results.filter (fun x => x.result == .win)).map
        (fun x => (x.userId, max 500 (x.eloBefore +
          round ((EloRatingService.K_FACTOR : ℚ) * 0.6)))))
      = (results.filter (fun x => x.result == .win)).map
          (fun x => (x.userId, max 500 (x.eloBefore +
            round ((EloRatingService.K_FACTOR : ℚ) * 0.6))))
        ++ (results.filter (fun x =>
            x.result == .loss || x.result == .forfeit ||
              x.result == .disconnect)).map
          (fun x => (x.userId, max 500 (x.eloBefore -
            round ((EloRatingService.K_FACTOR : ℚ) * 0.4)))) := by
    exact foldl_mapSet_append (fun x : GameResultEntry => x.userId)
      (fun x : GameResultEntry =>
        max 500 (x.eloBefore - round ((EloRatingService.K_FACTOR : ℚ) * 0.4)))
      (results.filter (fun x =>
        x.result == .loss || x.result == .forfeit || x.result == .disconnect))
      ((results.filter (fun x => x.result == .win)).map
        (fun x => (x.userId,
          max 500 (x.eloBefore +
            round ((EloRatingService.K_FACTOR : ℚ) * 0.6)))))
      hcross hlnd
  rw [hw, hl]
  unfold mapGet
  rw [List.find?_append]
  by_cases hwin : r.result = EloOutcome.win
  · have hrw : r ∈ results.filter (fun x => x.result == .win) :=
      List.mem_filter.mpr ⟨hr, by simp [hwin]⟩
    rw [find?_map_key_eq (fun x : GameResultEntry => x.userId) _ _ r hrw hwnd]
    simp [hwin]
  · by_cases hlose : r.result = EloOutcome.loss ∨ r.result = EloOutcome.forfeit ∨
        r.result = EloOutcome.disconnect
    · have hrl : r ∈ results.filter (fun x =>
          x.result == .loss || x.result == .forfeit ||
            x.result == .disconnect) := by
        refine List.mem_filter.mpr ⟨hr, ?_⟩
        rcases hlose with h | h | h <;> simp [h]
      have hnone : ∀ x ∈ results.filter (fun x => x.result == .win),
          x.userId ≠ r.userId := by
        intro x hx heq
        have hxmem := List.mem_filter.mp hx
        have hxr : x = r := hinj hxmem.1 hr heq
        rw [hxr] at hxmem
        have : r.result = EloOutcome.win := by simpa using hxmem.2
        exact hwin this
      rw [find?_map_key_none (fun x : GameResultEntry => x.userId) _ _ _ hnone]
      rw [find?_map_key_eq (fun x : GameResultEntry => x.userId) _ _ r hrl hlnd]
      simp [hwin, hlose]
    · have hnone1 : ∀ x ∈ results.filter (fun x => x.result == .win),
          x.userId ≠ r.userId := by
        intro x hx heq
        have hxmem := List.mem_filter.mp hx
        have hxr : x = r := hinj hxmem.1 hr heq
        rw [hxr] at hxmem
        have : r.result = EloOutcome.win := by simpa using hxmem.2
        exact hwin this
      have hnone2 : ∀ x ∈ results.filter (fun x =>
          x.result == .loss || x.result == .forfeit ||
            x.result == .disconnect), x.userId ≠ r.userId := by
        intro x hx heq
        have hxmem := List.mem_filter.mp hx
        have hxr : x = r := hinj hxmem.1 hr heq
        rw [hxr] at hxmem
        have hx2 := hxmem.2
        simp only [Bool.or_eq_true, beq_iff_eq] at hx2
        rcases hx2 with (h | h) | h
        · exact hlose (Or.inl h)
        · exact hlose (Or.inr (Or.inl h))
        · exact hlose (Or.inr (Or.inr h))
      rw [find?_map_key_none (fun x : GameResultEntry => x.userId) _ _ _ hnone1]
      rw [find?_map_key_none (fun x : GameResultEntry => x.userId) _ _ _ hnone2]
      simp [hwin, hlose]

/-- Witness for the amended C7 theorem: the draw participant of the
concrete three-player input gets no entry. -/
theorem multiplayer_flat_deltas_amended_witness :
    mapGet (EloRatingService.calculateNewRatings resultsThree)
        (GameResultEntry.userId ⟨"C", .draw, 1000⟩)
      = if (GameResultEntry.result ⟨"C", .draw, 1000⟩) = .win then
          some (max 500 ((GameResultEntry.eloBefore ⟨"C", .draw, 1000⟩) +
            round ((EloRatingService.K_FACTOR : ℚ) * 0.6)))
        else if (GameResultEntry.result ⟨"C", .draw, 1000⟩) = .loss ∨
            (GameResultEntry.result ⟨"C", .draw, 1000⟩) = .forfeit ∨
            (GameResultEntry.result ⟨"C", .draw, 1000⟩) = .disconnect then
          some (max 500 ((GameResultEntry.eloBefore ⟨"C", .draw, 1000⟩) -
            round ((EloRatingService.K_FACTOR : ℚ) * 0.4)))
        else none :=
  multiplayer_flat_deltas_amended resultsThree (by decide) (by decide)
    ⟨"C", .draw, 1000⟩ (by decide)

/-! ## Helper lemmas about the pairing loops -/

namespace MatchmakingService

theorem buildGroup_spec (now : ℤ) (mt : String) (anchor : QueueEntry)
    (req : ℕ) :
    ∀ (candidates grp : List QueueEntry) (used : List String),
      ∃ ext : List QueueEntry,
        buildGroup now mt anchor req candidates grp used
          = (grp ++ ext, (ext.map (fun c => c.user_id)).reverse ++ used) ∧
        (∀ c ∈ ext, isGoodMatch now mt anchor c = true) ∧
        (∀ c ∈ ext, c.user_id ∉ used) ∧
        (ext.map (fun c => c.user_id)).Nodup := by
  intro candidates
  induction candidates with
  | nil =>
    intro grp used
    exact ⟨[], by simp [buildGroup], by simp, by simp, by simp⟩
  | cons opponent rest ih =>
    intro grp used
    by_cases hbrk : opponent.user_id ∈ used ∨ req ≤ grp.length
    · refine ⟨[], ?_, by simp, by simp, by simp⟩
      simp only [buildGroup, if_pos hbrk]
      simp
    · by_cases hgood : isGoodMatch now mt anchor opponent = true
      · obtain ⟨ext2, heq, hgood2, hnotin2, hnd2⟩ :=
          ih (grp ++ [opponent]) (opponent.user_id :: used)
        refine ⟨opponent :: ext2, ?_, ?_, ?_, ?_⟩
        · simp only [buildGroup, if_neg hbrk, if_pos hgood]
          rw [heq]
          simp [List.append_assoc]
        · intro c hc
          rcases List.mem_cons.mp hc with rfl | hc2
          · exact hgood
          · exact hgood2 c hc2
        · intro c hc
          rcases List.mem_cons.mp hc with rfl | hc2
          · exact (not_or.mp hbrk).1
          · exact fun hmem => hnotin2 c hc2 (List.mem_cons_of_mem _ hmem)
        · rw [List.map_cons, List.nodup_cons]
          refine ⟨?_, hnd2⟩
          intro hmem
          rcases List.mem_map.mp hmem with ⟨c, hc, hceq⟩
          apply hnotin2 c hc
          rw [hceq]
          exact List.mem_cons_self ..
      · obtain ⟨ext2, heq, hgood2, hnotin2, hnd2⟩ := ih grp used
        refine ⟨ext2, ?_, hgood2, hnotin2, hnd2⟩
        simp only [buildGroup, if_neg hbrk, if_neg hgood]
        exact heq

theorem foldl_filter_eq (grp : List QueueEntry) :
    ∀ u : List String,
      grp.foldl (fun u p => u.filter (fun s => s ≠ p.user_id)) u
        = u.filter (fun s => decide (s ∉ grp.map (fun c => c.user_id))) := by
  induction grp with
  | nil =>
    intro u
    simp
  | cons p ps ih =>
    intro u
    rw [List.foldl_cons, ih, List.filter_filter]
    apply List.filter_congr
    intro s _
    by_cases h1 : s = p.user_id <;>
      by_cases h2 : s ∈ ps.map (fun c => c.user_id) <;> simp [h1, h2]

theorem findMatchesLoop_spec (now : ℤ) (mt : String) (req : ℕ)
    (sorted : List QueueEntry) :
    ∀ (remaining : List QueueEntry) (used : List String)
      (committed : List (List QueueEntry)),
      (∀ g ∈ committed, g.length = req) →
      List.Pairwise
        (fun g1 g2 => ∀ p ∈ g1, ∀ q ∈ g2, p.user_id ≠ q.user_id) committed →
      (∀ g ∈ committed, ∀ p ∈ g, p.user_id ∈ used) →
      (∀ g ∈ committed, ∃ a ext, g = a :: ext ∧
        ∀ c ∈ ext, isGoodMatch now mt a c = true) →
      (∀ g ∈ (findMatchesLoop now mt req sorted remaining used committed).1,
        g.length = req) ∧
      List.Pairwise
        (fun g1 g2 => ∀ p ∈ g1, ∀ q ∈ g2, p.user_id ≠ q.user_id)
        (findMatchesLoop now mt req sorted remaining used committed).1 ∧
      (∀ g ∈ (findMatchesLoop now mt req sorted remaining used committed).1,
        ∀ p ∈ g, p.user_id ∈ (findMatchesLoop now mt req sorted
          remaining used committed).2) ∧
      (∀ g ∈ (findMatchesLoop now mt req sorted remaining used committed).1,
        ∃ a ext, g = a :: ext ∧
          ∀ c ∈ ext, isGoodMatch now mt a c = true) := by
  intro remaining
  induction remaining with
  | nil =>
    intro used committed h1 h2 h3 h4
    exact ⟨h1, h2, h3, h4⟩
  | cons player rest ih =>
    intro used committed h1 h2 h3 h4
    by_cases hmem : player.user_id ∈ used
    · simp only [findMatchesLoop, if_pos hmem]
      exact ih used committed h1 h2 h3 h4
    · obtain ⟨ext, heq, hgood, hnotin, hnd⟩ :=
        buildGroup_spec now mt player req sorted [player]
          (player.user_id :: used)
      simp only [findMatchesLoop, if_neg hmem]
      rw [heq]
      dsimp only
      by_cases hlen : ([player] ++ ext).length = req
      · rw [if_pos hlen]
        apply ih
        · intro g hg
          rcases List.mem_append.mp hg with hgo | hgn
          · exact h1 g hgo
          · rw [List.mem_singleton.mp hgn]
            exact hlen
        · rw [List.pairwise_append]
          refine ⟨h2, by simp, ?_⟩
          intro g hgo g' hgn p hp q hq
          rw [List.mem_singleton.mp hgn] at hq
          have hpu : p.user_id ∈ used := h3 g hgo p hp
          rcases List.mem_cons.mp (by simpa using hq) with rfl | hq2
          · exact fun he => hmem (he ▸ hpu)
          · intro he
            apply hnotin q hq2
            rw [← he]
            exact List.mem_cons_of_mem _ hpu
        · intro g hg p hp
          rcases List.mem_append.mp hg with hgo | hgn
          · have := h3 g hgo p hp
            exact List.mem_append_right _ (List.mem_cons_of_mem _ this)
          · rw [List.mem_singleton.mp hgn] at hp
            rcases List.mem_cons.mp (by simpa using hp) with rfl | hp2
            · exact List.mem_append_right _ (List.mem_cons_self ..)
            · refine List.mem_append_left _ ?_
              rw [List.mem_reverse]
              exact List.mem_map_of_mem _ hp2
        · intro g hg
          rcases List.mem_append.mp hg with hgo | hgn
          · exact h4 g hgo
          · rw [List.mem_singleton.mp hgn]
            exact ⟨player, ext, by simp, hgood⟩
      · rw [if_neg hlen]
        have hrel : (([player] ++ ext).foldl
            (fun u p => u.filter (fun s => s ≠ p.user_id))
            ((ext.map (fun c => c.user_id)).reverse ++
              (player.user_id :: used))) = used := by
          rw [foldl_filter_eq]
          rw [List.filter_append]
          have hfa : ((ext.map (fun c => c.user_id)).reverse.filter
              (fun s => decide
                (s ∉ ([player] ++ ext).map (fun c => c.user_id)))) = [] := by
            rw [List.filter_eq_nil_iff]
            intro a ha
            rw [List.mem_reverse] at ha
            simp only [decide_eq_true_eq, not_not]
            rw [List.map_append]
            exact List.mem_append_right _ ha
          rw [hfa, List.nil_append]
          have hpf : (decide (player.user_id ∉
              ([player] ++ ext).map (fun c => c.user_id))) = false := by
            simp
          rw [List.filter_cons, hpf]
          simp only [Bool.false_eq_true, if_false]
          rw [List.filter_eq_self]
          intro a ha
          simp only [decide_eq_true_eq, List.map_append, List.mem_append]
          rintro (hin | hin)
          · rcases List.mem_map.mp hin with ⟨c, hc, hceq⟩
            rcases List.mem_singleton.mp hc with rfl
            exact hmem (hceq ▸ ha)
          · rcases List.mem_map.mp hin with ⟨c, hc, hceq⟩
            apply hnotin c hc
            rw [hceq]
            exact List.mem_cons_of_mem _ ha
        rw [hrel]
        exact ih used committed h1 h2 h3 h4

end MatchmakingService

/-! ## Claim C3 -/

/-- Claim C3: evaluation of the code at the scenario input.  The
compatibility test itself, with anchor A (rating 1000, waited 65 s),
admits C (rating 1200): threshold 100 + floor(65000/30000)·50 = 200 and
the gap is 200.  Yet the pairing scan commits NO match: the inner loop
of `findMatches` breaks as soon as it reaches an already-used entrant,
and the anchor itself — the first element of the sorted scan — is
already marked used, so the group anchored at the oldest entrant never
grows, and the group anchored at C is filtered by C's own (zero) wait
time. -/
theorem scenario2_scan_commits_no_match :
    MatchmakingService.isGoodMatch 65000 "ranked" entrantA entrantC = true ∧
    MatchmakingService.findMatches [entrantA, entrantC] 2 "ranked" 65000
      = [] := by decide

/-! ## Claim C4 -/

/-- Claim C4 (confirmed): every member of a committed ranked group was
admitted through `isGoodMatch` against the group's anchor (its first
element), so the skill gap to the anchor is bounded by
`100 + floor(wait(anchor)/30000)·50` where the wait is measured at the
scan time `now`. -/
theorem ranked_commit_respects_anchor_threshold (players : List QueueEntry)
    (requiredPlayers : ℕ) (now : ℤ) (grp : List QueueEntry)
    (hg : grp ∈ MatchmakingService.findMatches players requiredPlayers
      "ranked" now)
    (anchor c : QueueEntry) (hhead : grp.head? = some anchor)
    (hc : c ∈ grp.tail) :
    |anchor.elo_rating - c.elo_rating|
      ≤ 100 + (Int.fdiv (now - anchor.joined_at) 30000) * 50 := by
  unfold MatchmakingService.findMatches at hg
  obtain ⟨-, -, -, h4⟩ :=
    MatchmakingService.findMatchesLoop_spec now "ranked" requiredPlayers _ _
      [] [] (by simp) (by simp) (by simp) (by simp)
  obtain ⟨a, ext, hgeq, hgood⟩ := h4 grp hg
  rw [hgeq] at hhead hc
  have ha : a = anchor := by simpa using hhead
  rw [ha] at hgood
  have hcext : c ∈ ext := by simpa using hc
  have := hgood c hcext
  unfold MatchmakingService.isGoodMatch at this
  rw [if_neg (by simp)] at this
  simpa [MatchmakingService.ELO_THRESHOLD,
    MatchmakingService.EXPANSION_INTERVAL] using of_decide_eq_true this

/-- Witness for C4: the scan over B (joined 1000 ms) and A (joined 0)
at `now = 5000` commits the single group `[B, A]` anchored at B, and
the gap bound holds there. -/
theorem ranked_commit_respects_anchor_threshold_witness :
    |entrantB.elo_rating - entrantA.elo_rating|
      ≤ 100 + (Int.fdiv (5000 - entrantB.joined_at) 30000) * 50 :=
  ranked_commit_respects_anchor_threshold [entrantB, entrantA] 2 5000
    [entrantB, entrantA] (by decide) entrantB entrantA (by decide) (by decide)

/-! ## Claim C5 -/

/-- Claim C5 (confirmed): for every snapshot and every
`requiredPlayers ≥ 1`, `findMatches` only returns groups of size exactly
`requiredPlayers`, pairwise disjoint by user id; a candidate group that
fails to reach the required size is released (its claims are removed
from the used set) rather than emitted. -/
theorem findMatches_exact_size_disjoint (players : List QueueEntry)
    (requiredPlayers : ℕ) (matchType : String) (now : ℤ)
    (_hreq : 1 ≤ requiredPlayers) :
    (∀ grp ∈ MatchmakingService.findMatches players requiredPlayers
        matchType now, grp.length = requiredPlayers) ∧
    List.Pairwise (fun g1 g2 => ∀ p ∈ g1, ∀ q ∈ g2, p.user_id ≠ q.user_id)
      (MatchmakingService.findMatches players requiredPlayers matchType now) := by
  unfold MatchmakingService.findMatches
  obtain ⟨h1, h2, -, -⟩ :=
    MatchmakingService.findMatchesLoop_spec now matchType requiredPlayers _ _
      [] [] (by simp) (by simp) (by simp) (by simp)
  exact ⟨h1, h2⟩

/-- Witness for C5 at a concrete casual two-entrant snapshot. -/
theorem findMatches_exact_size_disjoint_witness :
    (∀ grp ∈ MatchmakingService.findMatches [entrantA, entrantB] 2
        "casual" 5000, grp.length = 2) ∧
    List.Pairwise (fun g1 g2 => ∀ p ∈ g1, ∀ q ∈ g2, p.user_id ≠ q.user_id)
      (MatchmakingService.findMatches [entrantA, entrantB] 2 "casual" 5000) :=
  findMatches_exact_size_disjoint [entrantA, entrantB] 2 "casual" 5000
    (by decide)

end PUGG
